import Mathlib

/-!
Verification development for the `semola` API framework core
(`src/lib/api`): request parsing, per-middleware schema validation,
middleware execution with short-circuiting, context extension, response
construction, and schema merging, shallowly embedded from the
TypeScript source (`src/lib/api/index.ts`, `context.ts`, `validator.ts`).
-/

namespace Semola

/-- A runtime JavaScript value, as far as the pipeline observes it.
`resp` models a constructed `Response` object (`instanceof Response`),
with its status and its serialized JSON body. -/
inductive Val where
  | undefined
  | null
  | bool (b : Bool)
  | num (n : Int)
  | str (s : String)
  | arr (elems : List Val)
  | obj (fields : List (String × Val))
  | resp (status : Nat) (body : Val)
deriving Repr

/-- JavaScript truthiness: `undefined`, `null`, `false`, `0`, `""` are
falsy; every object (arrays, plain objects, `Response`) is truthy. -/
def jsTruthy : Val → Bool
  | .undefined => false
  | .null => false
  | .bool b => b
  | .num n => n != 0
  | .str s => s ≠ ""
  | .arr _ => true
  | .obj _ => true
  | .resp _ _ => true

/-- The `instanceof Response` check. -/
def isResp : Val → Bool
  | .resp _ _ => true
  | _ => false

/-- Property lookup on a JavaScript object modelled as an insertion-ordered
association list: `m[k]`, `undefined` (here `none`) when absent. -/
def jsLookup : List (String × α) → String → Option α
  | [], _ => none
  | (k', v) :: rest, k => if k' = k then some v else jsLookup rest k

/-- Property assignment `m[k] = v` on a JavaScript object: updates the
value in place when the key exists, appends the key otherwise. -/
def jsSet : List (String × α) → String → α → List (String × α)
  | [], k, v => [(k, v)]
  | (k', v') :: rest, k, v =>
    if k' = k then (k', v) :: rest else (k', v') :: jsSet rest k v

/-- The own enumerable properties of a value, as `Object.assign` copies
them: object fields, array/string index properties, nothing for other
primitives. -/
def ownProps : Val → List (String × Val)
  | .obj fields => fields
  | .arr elems => elems.enum.map (fun p => (toString p.1, p.2))
  | .str s => s.toList.enum.map (fun p => (toString p.1, Val.str (String.mk [p.2])))
  | _ => []

/-- `Object.assign(target, source)`: copy each own enumerable property of
`source` into `target`, in order. -/
def jsAssign (target : List (String × Val)) (source : Val) : List (String × Val) :=
  (ownProps source).foldl (fun acc p => jsSet acc p.1 p.2) target

/-- One issue reported by a standard-schema validator: an optional path
and a message (`""` models a falsy/absent message). -/
structure Issue where
  path : Option (List String)
  message : String

/-- The result of a standard schema's own `validate`: either a non-empty
issues array or the (possibly coerced) output value. -/
inductive SchemaResult where
  | issues (issues : List Issue)
  | value (v : Val)

/-- An external schema object as the validator consumes it:
`hasStandard` models whether the `~standard.validate` surface is present,
`validate` is the schema's own validation function. -/
structure Schema where
  hasStandard : Bool
  validate : Val → SchemaResult

/-- An error descriptor `{ type, message }` as produced by `err`. -/
structure VErr where
  type : String
  message : String
deriving Repr, DecidableEq

/-- The message contributed by a single issue:
`path.map(String).join(".")` when the path is an array, else `"unknown"`,
then `": "`, then `issue.message || "validation failed"`. -/
def issueMessage (i : Issue) : String :=
  (match i.path with
    | some p => String.intercalate "." p
    | none => "unknown") ++
  ": " ++ (if i.message = "" then "validation failed" else i.message)

/-- The concatenated message of a validation failure (comma-joined). -/
def issuesMessage (l : List Issue) : String :=
  String.intercalate ", " (l.map issueMessage)

/-- `validateSchema(schema, data)` from `validator.ts`: pass-through when
the schema is absent, `ValidationError` when the standard surface is
missing, otherwise delegate to the schema and either collect the issue
messages or return the schema's output value. -/
def validateSchema : Option Schema → Val → Except VErr Val
  | none, data => .ok data
  | some s, data =>
    if s.hasStandard then
      match s.validate data with
      | .issues l => .error ⟨"ValidationError", issuesMessage l⟩
      | .value v => .ok v
    else .error ⟨"ValidationError", "Invalid schema: missing ~standard property"⟩

/-- A `RequestSchema`: five independently optional schema slots. -/
@[ext]
structure RequestSchema where
  body : Option Schema := none
  params : Option Schema := none
  query : Option Schema := none
  headers : Option Schema := none
  cookies : Option Schema := none

/-- A `ResponseSchema`: a status-code-keyed map of schemas, modelled as
an insertion-ordered association list. -/
abbrev ResponseSchema := List (Nat × Schema)

/-- The record produced by `parseRequest`. -/
structure ParsedData where
  body : Val
  params : List (String × String)
  query : List (String × Val)
  headers : List (String × String)
  cookies : List (String × String)

/-- An incoming request, as far as the pipeline reads it: the query-string
entries of its URL in order, the transport-attached path parameters, its
headers, and the outcome of `req.json()` (`none` models a parse throw). -/
structure Request where
  searchEntries : List (String × String)
  params : List (String × String)
  headers : List (String × String)
  jsonBody : Option Val

/-- `req.headers.get(name)`. -/
def headerGet (req : Request) (name : String) : Option String :=
  jsLookup req.headers name

/-- One step of `parseQueryString`'s loop: `Array.isArray(existing)`
pushes, a truthy existing scalar forms a two-element list, anything else
(absent or falsy existing) overwrites with the scalar value. -/
def queryStep (query : List (String × Val)) (kv : String × String) : List (String × Val) :=
  match jsLookup query kv.1 with
  | some (.arr l) => jsSet query kv.1 (.arr (l ++ [.str kv.2]))
  | some existing =>
    if jsTruthy existing then jsSet query kv.1 (.arr [existing, .str kv.2])
    else jsSet query kv.1 (.str kv.2)
  | none => jsSet query kv.1 (.str kv.2)

/-- `Api.parseQueryString` from `index.ts` (lines 147-160), applied to the
ordered `url.searchParams` entries. -/
def parseQueryString (entries : List (String × String)) : List (String × Val) :=
  entries.foldl queryStep []

/-- Split a cookie pair at its first `=` (`indexOf("=")`); `none` when no
`=` occurs. -/
def splitFirstEq (pair : String) : Option (String × String) :=
  match pair.splitOn "=" with
  | [] => none
  | [_] => none
  | k :: rest => some (k, String.intercalate "=" rest)

/-- One step of `parseCookies`' loop. -/
def cookieStep (cookies : List (String × String)) (pair : String) : List (String × String) :=
  match splitFirstEq pair with
  | none => cookies
  | some (k, v) =>
    let key := k.trim
    let value := v.trim
    if key ≠ "" ∧ value ≠ "" then jsSet cookies key value else cookies

/-- `Api.parseCookies` from `index.ts`. -/
def parseCookies : Option String → List (String × String)
  | none => []
  | some header => (header.splitOn ";").foldl cookieStep []

/-- Whether `sub` occurs as a contiguous substring (`String.includes`). -/
def listHasInfix (sub : List Char) : List Char → Bool
  | [] => sub.isEmpty
  | c :: t => sub.isPrefixOf (c :: t) || listHasInfix sub t

/-- `s.includes(sub)`. -/
def strIncludes (s sub : String) : Bool :=
  listHasInfix sub.toList s.toList

/-- The 400 `Response.json({ message }, { status: 400 })` bodies used by
the pipeline. -/
def msgBody (message : String) : Val :=
  .obj [("message", .str message)]

/-- `Api.parseBody`: skipped (undefined body) without a body schema or a
JSON content type; a 400 "Invalid JSON body" response only when the
content type indicates JSON and `req.json()` throws. -/
def parseBody (req : Request) (hasBodySchema : Bool) : Val ⊕ Val :=
  if hasBodySchema then
    let contentType := (headerGet req "content-type").getD ""
    if strIncludes contentType "application/json" then
      match req.jsonBody with
      | none => .inl (.resp 400 (msgBody "Invalid JSON body"))
      | some b => .inr b
    else .inr .undefined
  else .inr .undefined

/-- `Api.extractHeaders`: materialize the header record only when a
headers schema is declared. -/
def extractHeaders (req : Request) (hasHeaderSchema : Bool) : List (String × String) :=
  if hasHeaderSchema then req.headers.foldl (fun m p => jsSet m p.1 p.2) []
  else []

/-- `Api.parseRequest`: query, cookies, transport params, conditional
headers, conditional body; a body-parse failure short-circuits. -/
def parseRequest (req : Request) (schema : RequestSchema) : Val ⊕ ParsedData :=
  let query := parseQueryString req.searchEntries
  let cookies := parseCookies (headerGet req "cookie")
  let params := req.params
  let headers := extractHeaders req schema.headers.isSome
  match parseBody req schema.body.isSome with
  | .inl e => .inl e
  | .inr body => .inr ⟨body, params, query, headers, cookies⟩

/-- Render a string record as the object value a validator receives. -/
def recToVal (rec : List (String × String)) : Val :=
  .obj (rec.map (fun p => (p.1, Val.str p.2)))

/-- The `fieldsToValidate` tuple list of `Api.validateRequestFields`,
in source order: body, params, query, headers, cookies. -/
def fieldsToValidate (data : ParsedData) (schema : RequestSchema) : List (Val × Option Schema) :=
  [(data.body, schema.body),
   (recToVal data.params, schema.params),
   (.obj data.query, schema.query),
   (recToVal data.headers, schema.headers),
   (recToVal data.cookies, schema.cookies)]

/-- The loop of `Api.validateRequestFields`: skip absent slots, return a
400 response with the validator's message on the first failure. -/
def validateFieldsLoop (data : ParsedData) : List (Val × Option Schema) → Val ⊕ ParsedData
  | [] => .inr data
  | (_, none) :: rest => validateFieldsLoop data rest
  | (d, some s) :: rest =>
    match validateSchema (some s) d with
    | .error e => .inl (.resp 400 (msgBody e.message))
    | .ok _ => validateFieldsLoop data rest

/-- `Api.validateRequestFields` (index.ts lines 219-247): validate each
declared slot of `schema` against the parsed data; on the first failure
return `Response.json({ message: error.message }, { status: 400 })`,
otherwise return the data unchanged. -/
def validateRequestFields (data : ParsedData) (schema : RequestSchema) : Val ⊕ ParsedData :=
  validateFieldsLoop data (fieldsToValidate data schema)

/-- The first declared slot of `schema` whose validation of the parsed
data fails, together with the validator's error. -/
def firstErrorLoop : List (Val × Option Schema) → Option VErr
  | [] => none
  | (_, none) :: rest => firstErrorLoop rest
  | (d, some s) :: rest =>
    match validateSchema (some s) d with
    | .error e => some e
    | .ok _ => firstErrorLoop rest

/-- The validator error of the first failing declared field, if any. -/
def firstFieldError (data : ParsedData) (schema : RequestSchema) : Option VErr :=
  firstErrorLoop (fieldsToValidate data schema)

/-- The `RequestContext` object (context.ts): the five validated request
fields, the raw request, the captured effective response contract (the
`validateResponse` closure), and — once `extendContext` has run — the
middleware data captured by the installed `get` property (`getData = none`
before extension). -/
structure RequestContext where
  raw : Request
  body : Val
  params : List (String × String)
  query : List (String × Val)
  headers : List (String × String)
  cookies : List (String × String)
  responseSchemas : ResponseSchema
  getData : Option (List (String × Val)) := none

/-- `responseSchema[status]` inside the `validateResponseFn` closure. -/
def lookupStatusSchema (schemas : ResponseSchema) (status : Nat) : Option Schema :=
  (schemas.find? (fun p => p.1 == status)).map (fun p => p.2)

/-- `RequestContext.json(status, data)` (context.ts lines 69-81): run the
status' registered response schema; on failure delegate to the error
handler with an `InternalServerError` (status 500, message "Invalid
response data"); on success serialize the validator's output with the
given status. -/
def RequestContext.json (c : RequestContext) (status : Nat) (data : Val) : Val :=
  match validateSchema (lookupStatusSchema c.responseSchemas status) data with
  | .error _ => .resp 500 (msgBody "Invalid response data")
  | .ok v => .resp status v

/-- The `get` accessor installed by `extendContext`: the closure over
`middlewareData`, returning `undefined` (`none`) for absent keys. -/
def RequestContext.get (c : RequestContext) (key : String) : Option Val :=
  c.getData.bind (fun d => jsLookup d key)

/-- `Api.extendContext` (index.ts lines 333-340):
`Object.assign(baseContext, { get: (key) => middlewareData[key] })`.
`Object.assign` copies the `get` property into `baseContext` itself and
returns `baseContext`; the value produced here is therefore what both the
original `baseContext` reference and the returned reference observe after
the call. -/
def extendContext (baseContext : RequestContext) (middlewareData : List (String × Val)) : RequestContext :=
  { baseContext with getData := some middlewareData }

/-- The outcome of invoking a user-supplied handler: a throw, or a value. -/
inductive Outcome where
  | throws
  | value (v : Val)

/-- A middleware as `executeMiddlewares` consumes it: its optional request
schema, its optional response schema, and its handler. -/
structure Middleware where
  request : Option RequestSchema
  response : Option ResponseSchema
  handler : RequestContext → Outcome

/-- The fixed generic 500 response
`Response.json({ message: Api.INTERNAL_SERVER_ERROR.message }, { status: 500 })`. -/
def internal500 : Val :=
  .resp 500 (msgBody "Internal server error")

/-- The loop of `Api.executeMiddlewares` (index.ts lines 289-331), with an
instrumentation trace recording the (relative) indices of the middlewares
whose handler was actually invoked. Per middleware: validate its own
request schema first (400 short-circuit before its handler runs), then run
the handler (throw ⇒ generic 500; `instanceof Response` ⇒ immediate
return; otherwise `Object.assign` into the accumulating data). -/
def executeMiddlewaresAux : List Middleware → RequestContext → ParsedData →
    List (String × Val) → (Val ⊕ List (String × Val)) × List Nat
  | [], _, _, data => (.inr data, [])
  | m :: rest, ctx, parsed, data =>
    let runHandler : (Val ⊕ List (String × Val)) × List Nat :=
      match m.handler ctx with
      | .throws => (.inl internal500, [0])
      | .value v =>
        if isResp v then (.inl v, [0])
        else
          let r := executeMiddlewaresAux rest ctx parsed (jsAssign data v)
          (r.1, 0 :: r.2.map (fun i => i + 1))
    match m.request with
    | some rs =>
      match validateRequestFields parsed rs with
      | .inl response => (.inl response, [])
      | .inr _ => runHandler
    | none => runHandler

/-- `Api.executeMiddlewares`, starting from the empty data record. -/
def executeMiddlewares (middlewares : List Middleware) (context : RequestContext)
    (parsedData : ParsedData) : (Val ⊕ List (String × Val)) × List Nat :=
  executeMiddlewaresAux middlewares context parsedData []

/-- `Api.executeHandler` (index.ts lines 342-358): a thrown failure or a
falsy return value yields the generic 500; any truthy value is returned
as-is. -/
def executeHandler (handler : RequestContext → Outcome) (context : RequestContext) : Val :=
  match handler context with
  | .throws => internal500
  | .value v => if jsTruthy v then v else internal500

/-- One iteration of `Api.mergeRequestSchemas`' loop: skip an absent
schema (`if (!schema) continue`); otherwise overwrite each slot the
schema defines (`if (schema.body) merged.body = schema.body`, ...). -/
def mergeRequestStep (merged : RequestSchema) (s : Option RequestSchema) : RequestSchema :=
  match s with
  | none => merged
  | some schema =>
    { body := match schema.body with | some b => some b | none => merged.body
      params := match schema.params with | some p => some p | none => merged.params
      query := match schema.query with | some q => some q | none => merged.query
      headers := match schema.headers with | some h => some h | none => merged.headers
      cookies := match schema.cookies with | some c => some c | none => merged.cookies }

/-- `Api.mergeRequestSchemas` (index.ts lines 360-373): fold the optional
schemas left to right; each present slot of a later schema overwrites the
accumulated slot. -/
def mergeRequestSchemas (schemas : List (Option RequestSchema)) : RequestSchema :=
  schemas.foldl mergeRequestStep {}

/-- `Api.mergeResponseSchemas`: key-wise `Object.assign`, later sources
overwrite same-status entries. -/
def mergeResponseSchemas (schemas : List (Option ResponseSchema)) : ResponseSchema :=
  schemas.foldl
    (fun merged s =>
      match s with
      | none => merged
      | some schema =>
        schema.foldl
          (fun acc p =>
            if acc.any (fun q => q.1 == p.1) then
              acc.map (fun q => if q.1 == p.1 then (q.1, p.2) else q)
            else acc ++ [p])
          merged)
    []

/-- A route definition as `defineRoute` consumes it. -/
structure RouteDef where
  request : Option RequestSchema
  response : ResponseSchema
  middlewares : List Middleware
  handler : RequestContext → Outcome

/-- `Api.createBaseContext`: the base context over the route-validated
data (which `validateRequestFields` returns unchanged) and the merged
response contract; no `get` property yet. -/
def createBaseContext (req : Request) (validatedData : ParsedData)
    (responseSchema : ResponseSchema) : RequestContext :=
  { raw := req
    body := validatedData.body
    params := validatedData.params
    query := validatedData.query
    headers := validatedData.headers
    cookies := validatedData.cookies
    responseSchemas := responseSchema
    getData := none }

/-- The effective request contract of a route:
`mergeRequestSchemas(...allMiddlewares.map(m => m.definition.request), definition.request)`. -/
def effectiveRequest (allMws : List Middleware) (route : RouteDef) : RequestSchema :=
  mergeRequestSchemas (allMws.map (fun m => m.request) ++ [route.request])

/-- The effective response contract of a route. -/
def effectiveResponse (allMws : List Middleware) (route : RouteDef) : ResponseSchema :=
  mergeResponseSchemas (allMws.map (fun m => m.response) ++ [some route.response])

/-- The `wrappedHandler` built by `Api.defineRoute` (index.ts lines
61-91), instrumented with the middleware invocation trace and a flag
recording whether the route handler was invoked: parse, validate the
route's own schema, build the base context, run the middlewares, extend
the context with the accumulated data, run the route handler. -/
def wrappedHandler (route : RouteDef) (globalMws : List Middleware) (req : Request) :
    Val × List Nat × Bool :=
  let allMws := globalMws ++ route.middlewares
  let mergedRequest := effectiveRequest allMws route
  let mergedResponse := effectiveResponse allMws route
  match parseRequest req mergedRequest with
  | .inl response => (response, [], false)
  | .inr parsed =>
    match validateRequestFields parsed (route.request.getD {}) with
    | .inl response => (response, [], false)
    | .inr validated =>
      let baseContext := createBaseContext req validated mergedResponse
      match executeMiddlewares allMws baseContext parsed with
      | (.inl response, trace) => (response, trace, false)
      | (.inr data, trace) =>
        let extendedContext := extendContext baseContext data
        (executeHandler route.handler extendedContext, trace, true)

/-- `\w`: ASCII letters, digits, underscore. -/
def wordChar (c : Char) : Bool :=
  c.isAlphanum || c = '_'

/-- `path.replace(/\{(\w+)\}/g, ":$1")` from `Api.defineRoute` (index.ts
line 45): a leftmost match of `{name}` (a non-empty word-character run
enclosed in braces) becomes `:name` and scanning resumes after the
closing brace; otherwise the character is copied. -/
def toBunChars : List Char → List Char
  | [] => []
  | c :: rest =>
    if c = '{' then
      if h : (rest.dropWhile wordChar).head? = some '}' ∧ rest.takeWhile wordChar ≠ [] then
        ':' :: (rest.takeWhile wordChar ++ toBunChars (rest.dropWhile wordChar).tail)
      else '{' :: toBunChars rest
    else c :: toBunChars rest
termination_by l => l.length
decreasing_by
  all_goals simp_wf
  all_goals try omega
  · first
    | (have hle := (List.dropWhile_sublist wordChar (l := rest)).length_le
       have hne : rest.dropWhile wordChar ≠ [] := by
         intro hnil
         rw [hnil] at h
         exact Option.noConfusion h.1
       have hpos := List.length_pos.mpr hne
       have htl := List.length_tail (rest.dropWhile wordChar)
       omega)
    | (have hle := (List.dropWhile_sublist wordChar (l := t)).length_le
       have hne : t.dropWhile wordChar ≠ [] := by
         intro hnil
         rw [hnil] at h
         exact Option.noConfusion h.1
       have hpos := List.length_pos.mpr hne
       have htl := List.length_tail (t.dropWhile wordChar)
       omega)

/-- `path.replace(/:(\w+)/g, "{$1}")` from `generateOpenApiSpec`
(openapi.ts): a leftmost match of `:name` (a non-empty word-character
run after a colon) becomes `{name}`. -/
def fromBunChars : List Char → List Char
  | [] => []
  | c :: rest =>
    if c = ':' then
      if (rest.takeWhile wordChar).isEmpty then ':' :: fromBunChars rest
      else '{' :: (rest.takeWhile wordChar ++ ('}' :: fromBunChars (rest.dropWhile wordChar)))
    else c :: fromBunChars rest
termination_by l => l.length
decreasing_by
  all_goals simp_wf
  all_goals try omega
  · first
    | (have hle := (List.dropWhile_sublist wordChar (l := rest)).length_le
       omega)
    | (have hle := (List.dropWhile_sublist wordChar (l := t)).length_le
       omega)

/-- The registration-time path conversion `{name}` to `:name`. -/
def convertPathToBunFormat (path : String) : String :=
  String.mk (toBunChars path.toList)

/-- The spec generator's reverse conversion `:name` to `{name}`. -/
def convertPathToOpenApiFormat (path : String) : String :=
  String.mk (fromBunChars path.toList)

/-! ### Concrete fixtures used by witnesses and counterexamples -/

/-- A schema that rejects every value with one issue at path `q`. -/
def schemaReject : Schema :=
  ⟨true, fun _ => .issues [⟨some ["q"], "required"⟩]⟩

/-- A schema that accepts every value, coercing it to the string `"ok"`. -/
def schemaAccept : Schema :=
  ⟨true, fun _ => .value (.str "ok")⟩

/-- A minimal request: no query, no transport params, no headers, a
throwing body. -/
def req0 : Request := ⟨[], [], [], none⟩

/-- The parse of `req0` under an all-absent schema. -/
def parsed0 : ParsedData := ⟨.undefined, [], [], [], []⟩

/-- A base context over `req0` with an empty response contract. -/
def ctx0 : RequestContext :=
  { raw := req0, body := .undefined, params := [], query := [], headers := []
    cookies := [], responseSchemas := [], getData := none }

/-! ### Generic lemmas about the association-list object model -/

theorem jsLookup_jsSet (m : List (String × α)) (k k' : String) (v : α) :
    jsLookup (jsSet m k v) k' = if k = k' then some v else jsLookup m k' := by
  induction m with
  | nil => simp [jsSet, jsLookup]
  | cons p rest ih =>
    obtain ⟨k'', v''⟩ := p
    by_cases h1 : k'' = k
    · subst h1
      by_cases h2 : k'' = k' <;> simp [jsSet, jsLookup, h2]
    · by_cases h2 : k'' = k'
      · have h3 : ¬k = k' := fun h => h1 (h2.trans h.symm)
        have h4 : ¬k' = k := fun h => h1 (h2.trans h)
        simp [jsSet, jsLookup, h1, h2, h3, h4]
      · simp [jsSet, jsLookup, h1, h2, ih]

/-! ### C3: response validation in `json` -/

/-- C3. `json(status, data)`: when the schema registered for `status` in
the effective response contract rejects `data`, the result is the 500
`InternalServerError` response (never a 400); when validation succeeds,
the result carries exactly the requested status with the validator's
(possibly coerced) output as its body. -/
theorem json_response_validation (c : RequestContext) (status : Nat) (data : Val) :
    (∀ e, validateSchema (lookupStatusSchema c.responseSchemas status) data = .error e →
      c.json status data = .resp 500 (msgBody "Invalid response data")) ∧
    (∀ v, validateSchema (lookupStatusSchema c.responseSchemas status) data = .ok v →
      c.json status data = .resp status v) := by
  constructor
  · intro e he
    unfold RequestContext.json
    rw [he]
  · intro v hv
    unfold RequestContext.json
    rw [hv]

/-- Witness for C3: a rejecting 200-schema yields the 500 response, an
accepting (coercing) 200-schema yields a 200 with the coerced body. -/
theorem json_response_validation_witness :
    RequestContext.json { ctx0 with responseSchemas := [(200, schemaReject)] } 200 (.num 1) =
      .resp 500 (msgBody "Invalid response data") ∧
    RequestContext.json { ctx0 with responseSchemas := [(200, schemaAccept)] } 200 (.num 1) =
      .resp 200 (.str "ok") :=
  ⟨(json_response_validation _ 200 (.num 1)).1 ⟨"ValidationError", "q: required"⟩ rfl,
   (json_response_validation _ 200 (.num 1)).2 (.str "ok") rfl⟩

/-! ### C4: request-schema merging -/

/-- The last defined element of a list of optional values. -/
def lastDefined (l : List (Option α)) : Option α :=
  l.reverse.findSome? id

theorem lastDefined_cons (o : Option α) (t : List (Option α)) :
    lastDefined (o :: t) = (lastDefined t).or o := by
  simp [lastDefined, List.findSome?_append]
  cases o <;> simp [List.findSome?]

theorem foldl_or_eq_lastDefined (l : List (Option α)) (a : Option α) :
    l.foldl (fun acc o => o.or acc) a = (lastDefined l).or a := by
  induction l generalizing a with
  | nil => simp [lastDefined]
  | cons o t ih =>
    rw [List.foldl_cons, ih, lastDefined_cons]
    cases lastDefined t <;> cases o <;> simp [Option.or]

theorem mergeRequestStep_slots (init : RequestSchema) (o : Option RequestSchema) :
    (mergeRequestStep init o).body = (o.bind RequestSchema.body).or init.body ∧
    (mergeRequestStep init o).params = (o.bind RequestSchema.params).or init.params ∧
    (mergeRequestStep init o).query = (o.bind RequestSchema.query).or init.query ∧
    (mergeRequestStep init o).headers = (o.bind RequestSchema.headers).or init.headers ∧
    (mergeRequestStep init o).cookies = (o.bind RequestSchema.cookies).or init.cookies := by
  cases o with
  | none => simp [mergeRequestStep, Option.or]
  | some s =>
    obtain ⟨b, p, q, hh, ck⟩ := s
    refine ⟨?_, ?_, ?_, ?_, ?_⟩
    · cases b <;> rfl
    · cases p <;> rfl
    · cases q <;> rfl
    · cases hh <;> rfl
    · cases ck <;> rfl

theorem mergeFold_slots (l : List (Option RequestSchema)) (init : RequestSchema) :
    (l.foldl mergeRequestStep init).body =
      (l.map (fun o => o.bind RequestSchema.body)).foldl (fun acc o => o.or acc) init.body ∧
    (l.foldl mergeRequestStep init).params =
      (l.map (fun o => o.bind RequestSchema.params)).foldl (fun acc o => o.or acc) init.params ∧
    (l.foldl mergeRequestStep init).query =
      (l.map (fun o => o.bind RequestSchema.query)).foldl (fun acc o => o.or acc) init.query ∧
    (l.foldl mergeRequestStep init).headers =
      (l.map (fun o => o.bind RequestSchema.headers)).foldl (fun acc o => o.or acc) init.headers ∧
    (l.foldl mergeRequestStep init).cookies =
      (l.map (fun o => o.bind RequestSchema.cookies)).foldl (fun acc o => o.or acc) init.cookies := by
  induction l generalizing init with
  | nil => exact ⟨rfl, rfl, rfl, rfl, rfl⟩
  | cons o t ih =>
    obtain ⟨h1, h2, h3, h4, h5⟩ := ih (mergeRequestStep init o)
    obtain ⟨s1, s2, s3, s4, s5⟩ := mergeRequestStep_slots init o
    refine ⟨?_, ?_, ?_, ?_, ?_⟩ <;>
      simp only [List.foldl_cons, List.map_cons, h1, h2, h3, h4, h5, s1, s2, s3, s4, s5]

/-- Each slot of a fold of `mergeRequestStep` is the last defined source
for that slot, falling back to the initial slot. -/
theorem mergeRequestSchemas_slot_body (l : List (Option RequestSchema)) :
    (mergeRequestSchemas l).body = lastDefined (l.map (fun o => o.bind RequestSchema.body)) := by
  have h := (mergeFold_slots l {}).1
  rw [mergeRequestSchemas, h, foldl_or_eq_lastDefined]
  cases lastDefined (l.map (fun o => o.bind RequestSchema.body)) <;> rfl

theorem mergeRequestSchemas_slot_params (l : List (Option RequestSchema)) :
    (mergeRequestSchemas l).params = lastDefined (l.map (fun o => o.bind RequestSchema.params)) := by
  have h := (mergeFold_slots l {}).2.1
  rw [mergeRequestSchemas, h, foldl_or_eq_lastDefined]
  cases lastDefined (l.map (fun o => o.bind RequestSchema.params)) <;> rfl

theorem mergeRequestSchemas_slot_query (l : List (Option RequestSchema)) :
    (mergeRequestSchemas l).query = lastDefined (l.map (fun o => o.bind RequestSchema.query)) := by
  have h := (mergeFold_slots l {}).2.2.1
  rw [mergeRequestSchemas, h, foldl_or_eq_lastDefined]
  cases lastDefined (l.map (fun o => o.bind RequestSchema.query)) <;> rfl

theorem mergeRequestSchemas_slot_headers (l : List (Option RequestSchema)) :
    (mergeRequestSchemas l).headers = lastDefined (l.map (fun o => o.bind RequestSchema.headers)) := by
  have h := (mergeFold_slots l {}).2.2.2.1
  rw [mergeRequestSchemas, h, foldl_or_eq_lastDefined]
  cases lastDefined (l.map (fun o => o.bind RequestSchema.headers)) <;> rfl

theorem mergeRequestSchemas_slot_cookies (l : List (Option RequestSchema)) :
    (mergeRequestSchemas l).cookies = lastDefined (l.map (fun o => o.bind RequestSchema.cookies)) := by
  have h := (mergeFold_slots l {}).2.2.2.2
  rw [mergeRequestSchemas, h, foldl_or_eq_lastDefined]
  cases lastDefined (l.map (fun o => o.bind RequestSchema.cookies)) <;> rfl

/-- Merging a single schema is the identity on it. -/
theorem mergeRequestSchemas_single (m : RequestSchema) :
    mergeRequestSchemas [some m] = m := by
  obtain ⟨b, p, q, hh, ck⟩ := m
  show mergeRequestStep {} (some ⟨b, p, q, hh, ck⟩) = _
  cases b <;> cases p <;> cases q <;> cases hh <;> cases ck <;> rfl

/-- C4. Request-schema merging: each slot of the merged schema is the
slot of the last schema in the list that defines it (absent when none
does); merging the merged result again changes nothing; and because
`defineRoute` merges the route's own schema last, a slot the route
defines wins over any middleware slot. -/
theorem mergeRequestSchemas_last_wins (l : List (Option RequestSchema)) :
    ((mergeRequestSchemas l).body = lastDefined (l.map (fun o => o.bind RequestSchema.body)) ∧
     (mergeRequestSchemas l).params = lastDefined (l.map (fun o => o.bind RequestSchema.params)) ∧
     (mergeRequestSchemas l).query = lastDefined (l.map (fun o => o.bind RequestSchema.query)) ∧
     (mergeRequestSchemas l).headers = lastDefined (l.map (fun o => o.bind RequestSchema.headers)) ∧
     (mergeRequestSchemas l).cookies = lastDefined (l.map (fun o => o.bind RequestSchema.cookies))) ∧
    mergeRequestSchemas [some (mergeRequestSchemas l)] = mergeRequestSchemas l ∧
    (∀ (ms : List (Option RequestSchema)) (r : RequestSchema),
      (mergeRequestSchemas (ms ++ [some r])).body = r.body.or (mergeRequestSchemas ms).body ∧
      (mergeRequestSchemas (ms ++ [some r])).params = r.params.or (mergeRequestSchemas ms).params ∧
      (mergeRequestSchemas (ms ++ [some r])).query = r.query.or (mergeRequestSchemas ms).query ∧
      (mergeRequestSchemas (ms ++ [some r])).headers = r.headers.or (mergeRequestSchemas ms).headers ∧
      (mergeRequestSchemas (ms ++ [some r])).cookies = r.cookies.or (mergeRequestSchemas ms).cookies) := by
  refine ⟨⟨mergeRequestSchemas_slot_body l, mergeRequestSchemas_slot_params l,
          mergeRequestSchemas_slot_query l, mergeRequestSchemas_slot_headers l,
          mergeRequestSchemas_slot_cookies l⟩,
        mergeRequestSchemas_single (mergeRequestSchemas l), ?_⟩
  intro ms r
  have happ : mergeRequestSchemas (ms ++ [some r]) =
      mergeRequestStep (mergeRequestSchemas ms) (some r) := by
    simp [mergeRequestSchemas, List.foldl_append]
  obtain ⟨s1, s2, s3, s4, s5⟩ := mergeRequestStep_slots (mergeRequestSchemas ms) (some r)
  rw [happ]
  exact ⟨s1, s2, s3, s4, s5⟩

/-! ### C5: context extension -/

/-- Counterexample for C5 as stated. `Object.assign(baseContext, { get })`
copies the `get` property into `baseContext` itself and returns
`baseContext`, so the value observable through the original base-context
reference after `extendContext` — which is exactly the value
`extendContext` produces — differs from the pre-call base context: the
original is mutated in place, not left unchanged. -/
theorem extendContext_mutates_base :
    extendContext ctx0 [("a", Val.num 1)] ≠ ctx0 := by
  intro h
  have h2 := congrArg RequestContext.getData h
  simp [extendContext, ctx0] at h2

/-- C5 as amended: extension preserves every request field and the
response helpers' captured contract, and exposes `get(key)` over the
merged middleware data; but it is performed by in-place augmentation of
the base context (the extended value equals the original only when the
original already carried exactly this `get` data). -/
theorem extendContext_augments (ctx : RequestContext) (d : List (String × Val)) (k : String) :
    ((extendContext ctx d).raw = ctx.raw ∧
     (extendContext ctx d).body = ctx.body ∧
     (extendContext ctx d).params = ctx.params ∧
     (extendContext ctx d).query = ctx.query ∧
     (extendContext ctx d).headers = ctx.headers ∧
     (extendContext ctx d).cookies = ctx.cookies ∧
     (extendContext ctx d).responseSchemas = ctx.responseSchemas) ∧
    RequestContext.get (extendContext ctx d) k = jsLookup d k ∧
    (extendContext ctx d = ctx ↔ ctx.getData = some d) := by
  refine ⟨⟨rfl, rfl, rfl, rfl, rfl, rfl, rfl⟩, rfl, ?_, ?_⟩
  · intro h
    exact (congrArg RequestContext.getData h).symm
  · intro h
    cases ctx
    simp_all [extendContext]

/-! ### C10: body parsing -/

/-- C10. With a declared body schema but a non-JSON content type, body
parsing is skipped and succeeds with an undefined body — `parseRequest`
yields a parsed record, not a 400 or 415; and the 400 "Invalid JSON body"
response arises exactly when a body schema is declared, the content type
indicates JSON, and `req.json()` throws — it is moreover the only
response `parseBody` can produce. -/
theorem parseBody_skips_non_json (req : Request) (rs : RequestSchema) :
    (rs.body.isSome = true →
      strIncludes ((headerGet req "content-type").getD "") "application/json" = false →
        parseBody req rs.body.isSome = .inr .undefined ∧
        parseRequest req rs = .inr ⟨.undefined, req.params, parseQueryString req.searchEntries,
          extractHeaders req rs.headers.isSome, parseCookies (headerGet req "cookie")⟩) ∧
    (∀ hb : Bool,
      parseBody req hb = .inl (.resp 400 (msgBody "Invalid JSON body")) ↔
        hb = true ∧
        strIncludes ((headerGet req "content-type").getD "") "application/json" = true ∧
        req.jsonBody = none) ∧
    (∀ (hb : Bool) (r : Val), parseBody req hb = .inl r →
      r = .resp 400 (msgBody "Invalid JSON body")) := by
  refine ⟨?_, ?_, ?_⟩
  · intro hbody hct
    have hp : parseBody req rs.body.isSome = .inr .undefined := by
      rw [hbody]
      simp only [parseBody, hct, if_true, if_false, Bool.false_eq_true]
    refine ⟨hp, ?_⟩
    unfold parseRequest
    rw [hp]
  · intro hb
    constructor
    · intro h
      cases hb with
      | false => simp [parseBody] at h
      | true =>
        refine ⟨rfl, ?_, ?_⟩ <;>
        · by_cases hct : strIncludes ((headerGet req "content-type").getD "") "application/json" = true <;>
            cases hjb : req.jsonBody <;>
            simp_all [parseBody]
    · rintro ⟨hb1, hct, hjb⟩
      subst hb1
      simp [parseBody, hct, hjb]
  · intro hb r h
    cases hb <;>
      [skip;
       by_cases hct : strIncludes ((headerGet req "content-type").getD "") "application/json" = true <;>
         cases hjb : req.jsonBody] <;>
      simp_all [parseBody]

/-- Witness for C10: a request with `content-type: text/plain` and a
throwing body parser, under a schema that declares a body, parses to an
undefined body with no error response. -/
theorem parseBody_skips_non_json_witness :
    parseBody ⟨[], [], [("content-type", "text/plain")], none⟩ true = .inr .undefined ∧
    parseRequest ⟨[], [], [("content-type", "text/plain")], none⟩
        { body := some schemaAccept } =
      .inr ⟨.undefined, [], [], [], []⟩ := by
  have h := (parseBody_skips_non_json ⟨[], [], [("content-type", "text/plain")], none⟩
    { body := some schemaAccept }).1 rfl rfl
  exact ⟨h.1, h.2⟩

/-! ### C6: query-string parsing -/

/-- The per-key evolution of the stored query value when one more
occurrence of the key arrives with value `v`. -/
def valStep (acc : Option Val) (v : String) : Option Val :=
  match acc with
  | some (.arr l) => some (.arr (l ++ [.str v]))
  | some existing =>
    if jsTruthy existing then some (.arr [existing, .str v])
    else some (.str v)
  | none => some (.str v)

/-- The values carried by key `k` among the query entries, in order. -/
def valuesFor (k : String) (entries : List (String × String)) : List String :=
  entries.filterMap (fun kv => if kv.1 = k then some kv.2 else none)

/-- What `parseQueryString` actually stores for a key with the given
occurrence-ordered values: values strictly before the first non-empty
value are dropped (an empty-string scalar is overwritten, not collected);
at most one remaining value gives a scalar, two or more give the ordered
list of the remaining values. -/
def collapseValues (vs : List String) : Option Val :=
  match vs with
  | [] => none
  | _ =>
    match vs.dropWhile (fun v => v = "") with
    | [] => some (.str "")
    | [v] => some (.str v)
    | l => some (.arr (l.map .str))

/-- Counterexample for C6 as stated: the key `a` occurs twice (values
`""` then `"x"`), yet `parseQueryString` maps it to the scalar `"x"`
rather than the ordered list of all its values — the truthiness check
`else if (existing)` treats the stored empty-string scalar as absent. -/
theorem parseQueryString_empty_first_cx :
    jsLookup (parseQueryString [("a", ""), ("a", "x")]) "a" = some (.str "x") ∧
    Val.str "x" ≠ Val.arr [.str "", .str "x"] := by
  constructor
  · rfl
  · intro h
    cases h

theorem jsLookup_queryStep (q : List (String × Val)) (e : String × String) (k : String) :
    jsLookup (queryStep q e) k =
      if e.1 = k then valStep (jsLookup q e.1) e.2 else jsLookup q k := by
  cases h : jsLookup q e.1 with
  | none => simp only [queryStep, valStep, h, jsLookup_jsSet]
  | some ex =>
    cases ex <;> simp only [queryStep, valStep, h, jsLookup_jsSet] <;>
      first
      | rfl
      | (split <;> rename_i htr <;> simp [htr, jsLookup_jsSet])

theorem valuesFor_cons (k : String) (e : String × String) (t : List (String × String)) :
    valuesFor k (e :: t) = if e.1 = k then e.2 :: valuesFor k t else valuesFor k t := by
  unfold valuesFor
  by_cases h : e.1 = k <;> simp [h]

theorem foldl_queryStep_project (entries : List (String × String))
    (init : List (String × Val)) (k : String) :
    jsLookup (entries.foldl queryStep init) k =
      (valuesFor k entries).foldl valStep (jsLookup init k) := by
  induction entries generalizing init with
  | nil => rfl
  | cons e t ih =>
    rw [List.foldl_cons, ih, jsLookup_queryStep, valuesFor_cons]
    by_cases h : e.1 = k
    · rw [if_pos h, if_pos h, List.foldl_cons, h]
    · rw [if_neg h, if_neg h]

theorem foldl_valStep_arr (vs : List String) (l : List Val) :
    vs.foldl valStep (some (.arr l)) = some (.arr (l ++ vs.map .str)) := by
  induction vs generalizing l with
  | nil => simp
  | cons v t ih => simp [valStep, ih]

theorem foldl_valStep_str (vs : List String) (s : String) (hs : s ≠ "") :
    vs.foldl valStep (some (.str s)) =
      (if vs = [] then some (.str s) else some (.arr (.str s :: vs.map .str))) := by
  cases vs with
  | nil => rfl
  | cons v t =>
    have hstep : valStep (some (.str s)) v = some (.arr [.str s, .str v]) := by
      simp [valStep, jsTruthy, hs]
    simp only [List.foldl_cons, hstep, foldl_valStep_arr]
    simp

theorem foldl_valStep_collapse (vs : List String) :
    vs.foldl valStep none = collapseValues vs := by
  induction vs with
  | nil => rfl
  | cons v t ih =>
    have hfirst : valStep none v = some (.str v) := rfl
    rw [List.foldl_cons, hfirst]
    by_cases hv : v = ""
    · subst hv
      cases t with
      | nil => rfl
      | cons w t' =>
        have hrestart : valStep (some (.str "")) w = some (.str w) := by
          simp [valStep, jsTruthy]
        rw [List.foldl_cons, hrestart]
        have hih : List.foldl valStep (some (.str w)) t' = collapseValues (w :: t') := by
          have h2 := ih
          rw [List.foldl_cons] at h2
          exact h2
        rw [hih]
        have hdw : List.dropWhile (fun v => v = "") ("" :: w :: t') =
            List.dropWhile (fun v => v = "") (w :: t') :=
          List.dropWhile_cons_of_pos (by simp)
        simp only [collapseValues, hdw]
    · rw [foldl_valStep_str t v hv]
      have hdw : List.dropWhile (fun x => x = "") (v :: t) = v :: t :=
        List.dropWhile_cons_of_neg (by simp [hv])
      cases t with
      | nil => simp only [collapseValues, hdw, if_pos]
      | cons w t' => simp [collapseValues, hdw]

/-- C6 as amended: for every sequence of query entries and every key, the
stored value is the collapse of the key's occurrence-ordered values in
which values strictly before the first non-empty value are dropped (the
code's truthiness check overwrites an empty-string scalar instead of
forming a list): one remaining value stays scalar, two or more become the
ordered list. When the key's first value is non-empty this coincides with
the original claim (single occurrence scalar, repeats as the full ordered
list). -/
theorem parseQueryString_collapse (entries : List (String × String)) (k : String) :
    jsLookup (parseQueryString entries) k = collapseValues (valuesFor k entries) := by
  unfold parseQueryString
  rw [foldl_queryStep_project]
  exact foldl_valStep_collapse (valuesFor k entries)

/-! ### C9: accumulated middleware data -/

/-- The last value stored for `k` by an ordered sequence of property
assignments: later entries win. -/
def lastAssoc : List (String × Val) → String → Option Val
  | [], _ => none
  | p :: rest, k => (lastAssoc rest k).or (if p.1 = k then some p.2 else none)

/-- A middleware with no schemas whose handler always returns the given
data record. -/
def dataMiddleware (r : List (String × Val)) : Middleware :=
  ⟨none, none, fun _ => .value (.obj r)⟩

theorem execDataMws (recs : List (List (String × Val))) (ctx : RequestContext)
    (parsed : ParsedData) (data : List (String × Val)) :
    executeMiddlewaresAux (recs.map dataMiddleware) ctx parsed data =
      (.inr (recs.foldl (fun a r => jsAssign a (.obj r)) data), List.range recs.length) := by
  induction recs generalizing data with
  | nil => rfl
  | cons r t ih =>
    simp only [List.map_cons, executeMiddlewaresAux, dataMiddleware, isResp, List.foldl_cons]
    rw [ih (jsAssign data (.obj r))]
    simp [List.range_succ_eq_map, Nat.succ_eq_add_one]

theorem foldl_jsSet_lastAssoc (l : List (String × Val)) (init : List (String × Val)) (k : String) :
    jsLookup (l.foldl (fun m p => jsSet m p.1 p.2) init) k =
      (lastAssoc l k).or (jsLookup init k) := by
  induction l generalizing init with
  | nil => simp [lastAssoc, Option.or]
  | cons p rest ih =>
    rw [List.foldl_cons, ih, jsLookup_jsSet]
    show _ = ((lastAssoc rest k).or (if p.1 = k then some p.2 else none)).or (jsLookup init k)
    cases lastAssoc rest k <;> by_cases h : p.1 = k <;> simp [h, Option.or]

theorem lastAssoc_not_contributed (l : List (String × Val)) (k : String)
    (h : ∀ p ∈ l, p.1 ≠ k) : lastAssoc l k = none := by
  induction l with
  | nil => rfl
  | cons p rest ih =>
    have hp : p.1 ≠ k := h p (List.mem_cons_self p rest)
    have hrest := ih (fun q hq => h q (List.mem_cons_of_mem p hq))
    simp [lastAssoc, hp, hrest, Option.or]

/-- C9. When every middleware in the chain contributes a data record, the
accumulated shared data seen through the extended context's `get(key)`
holds, for each key, the value from the last middleware (and last entry)
that returned that key — earlier values are overwritten — and `get`
returns `undefined` for keys no middleware contributed. -/
theorem middlewareData_last_wins (recs : List (List (String × Val)))
    (ctx : RequestContext) (parsed : ParsedData) (k : String)
    (D : List (String × Val)) (tr : List Nat)
    (h : executeMiddlewares (recs.map dataMiddleware) ctx parsed = (.inr D, tr)) :
    RequestContext.get (extendContext ctx D) k = lastAssoc recs.flatten k ∧
    ((∀ p ∈ recs.flatten, p.1 ≠ k) →
      RequestContext.get (extendContext ctx D) k = none) := by
  have hexec := execDataMws recs ctx parsed []
  rw [executeMiddlewares, hexec] at h
  have hD : Sum.inr (α := Val) (recs.foldl (fun a r => jsAssign a (.obj r)) []) = .inr D :=
    congrArg Prod.fst h
  have hD2 : recs.foldl (fun a r => jsAssign a (.obj r)) [] = D := by
    injection hD
  have hget : RequestContext.get (extendContext ctx D) k = jsLookup D k := rfl
  have hflat : recs.foldl (fun a r => jsAssign a (.obj r)) [] =
      recs.flatten.foldl (fun m p => jsSet m p.1 p.2) [] := by
    rw [List.foldl_flatten]
    rfl
  have hmain : RequestContext.get (extendContext ctx D) k = lastAssoc recs.flatten k := by
    rw [hget, ← hD2, hflat, foldl_jsSet_lastAssoc]
    cases lastAssoc recs.flatten k <;> rfl
  exact ⟨hmain, fun hnone => by rw [hmain, lastAssoc_not_contributed recs.flatten k hnone]⟩

/-- Witness for C9: two middlewares both returning key `a` — the second
one's value wins, and the uncontributed key `c` reads as `undefined`. -/
theorem middlewareData_last_wins_witness :
    (RequestContext.get (extendContext ctx0 [("a", Val.num 2), ("b", Val.num 3)]) "a" =
      lastAssoc ([[("a", Val.num 1)], [("a", Val.num 2), ("b", Val.num 3)]] :
        List (List (String × Val))).flatten "a" ∧
     lastAssoc ([[("a", Val.num 1)], [("a", Val.num 2), ("b", Val.num 3)]] :
        List (List (String × Val))).flatten "a" = some (Val.num 2)) ∧
    RequestContext.get (extendContext ctx0 [("a", Val.num 2), ("b", Val.num 3)]) "c" = none :=
  ⟨⟨(middlewareData_last_wins [[("a", Val.num 1)], [("a", Val.num 2), ("b", Val.num 3)]]
      ctx0 parsed0 "a" [("a", Val.num 2), ("b", Val.num 3)] [0, 1] rfl).1, rfl⟩,
   (middlewareData_last_wins [[("a", Val.num 1)], [("a", Val.num 2), ("b", Val.num 3)]]
      ctx0 parsed0 "c" [("a", Val.num 2), ("b", Val.num 3)] [0, 1] rfl).2
     (by intro p hp; fin_cases hp <;> simp)⟩

theorem validateFieldsLoop_eq (data : ParsedData) (l : List (Val × Option Schema)) :
    validateFieldsLoop data l =
      match firstErrorLoop l with
      | some e => .inl (.resp 400 (msgBody e.message))
      | none => .inr data := by
  induction l with
  | nil => rfl
  | cons fp rest ih =>
    obtain ⟨d, os⟩ := fp
    cases os with
    | none => simpa [validateFieldsLoop, firstErrorLoop] using ih
    | some s =>
      simp only [validateFieldsLoop, firstErrorLoop]
      cases h : validateSchema (some s) d with
      | error e => rfl
      | ok v => exact ih

/-- `validateRequestFields` fails exactly on the first failing declared
field, with a 400 response carrying that validator's message. -/
theorem validateRequestFields_eq_firstFieldError (data : ParsedData) (schema : RequestSchema) :
    validateRequestFields data schema =
      match firstFieldError data schema with
      | some e => .inl (.resp 400 (msgBody e.message))
      | none => .inr data :=
  validateFieldsLoop_eq data (fieldsToValidate data schema)

/-! ### C1, C2, C7: the middleware/handler pipeline -/

/-- The middleware's own schema validation (if any) succeeds on the
parsed data. `validateRequestFields` returns its argument on success. -/
def mwPasses (m : Middleware) (parsed : ParsedData) : Prop :=
  ∀ rs, m.request = some rs → validateRequestFields parsed rs = .inr parsed

/-- The middleware's handler returns a non-`Response` data value. -/
def isDataOutcome (m : Middleware) (ctx : RequestContext) : Prop :=
  ∃ d, m.handler ctx = .value d ∧ isResp d = false

theorem execAux_response_short_circuit
    (pre : List Middleware) (mk : Middleware) (post : List Middleware)
    (ctx : RequestContext) (parsed : ParsedData) (r : Val)
    (hpre : ∀ m ∈ pre, mwPasses m parsed ∧ isDataOutcome m ctx)
    (hmk : mwPasses mk parsed)
    (hr : mk.handler ctx = .value r) (hresp : isResp r = true) :
    ∀ data, executeMiddlewaresAux (pre ++ mk :: post) ctx parsed data =
      (.inl r, List.range (pre.length + 1)) := by
  induction pre with
  | nil =>
    intro data
    simp only [List.nil_append, executeMiddlewaresAux, hr, hresp]
    cases hmkr : mk.request with
    | none => simp [List.range_succ]
    | some rs => simp [hmk rs hmkr, List.range_succ]
  | cons m pre' ih =>
    intro data
    have hm := hpre m (List.mem_cons_self m _)
    obtain ⟨d, hd, hdnr⟩ := hm.2
    have hpre' : ∀ m' ∈ pre', mwPasses m' parsed ∧ isDataOutcome m' ctx :=
      fun m' hm' => hpre m' (List.mem_cons_of_mem m hm')
    have ihd := ih hpre' (jsAssign data d)
    simp only [List.cons_append, executeMiddlewaresAux, hd, hdnr]
    cases hmr : m.request with
    | none =>
      simp [ihd, List.range_succ_eq_map, Nat.succ_eq_add_one]
    | some rs =>
      simp [hm.1 rs hmr, ihd, List.range_succ_eq_map, Nat.succ_eq_add_one]

theorem execAux_validation_short_circuit
    (pre : List Middleware) (mk : Middleware) (post : List Middleware)
    (ctx : RequestContext) (parsed : ParsedData) (rs : RequestSchema) (response : Val)
    (hpre : ∀ m ∈ pre, mwPasses m parsed ∧ isDataOutcome m ctx)
    (hrs : mk.request = some rs)
    (hfail : validateRequestFields parsed rs = .inl response) :
    ∀ data, executeMiddlewaresAux (pre ++ mk :: post) ctx parsed data =
      (.inl response, List.range pre.length) := by
  induction pre with
  | nil =>
    intro data
    simp only [List.nil_append, executeMiddlewaresAux, hrs, hfail]
    simp
  | cons m pre' ih =>
    intro data
    have hm := hpre m (List.mem_cons_self m _)
    obtain ⟨d, hd, hdnr⟩ := hm.2
    have hpre' : ∀ m' ∈ pre', mwPasses m' parsed ∧ isDataOutcome m' ctx :=
      fun m' hm' => hpre m' (List.mem_cons_of_mem m hm')
    have ihd := ih hpre' (jsAssign data d)
    simp only [List.cons_append, executeMiddlewaresAux, hd, hdnr]
    cases hmr : m.request with
    | none =>
      simp [ihd, List.range_succ_eq_map, Nat.succ_eq_add_one]
    | some rs' =>
      simp [hm.1 rs' hmr, ihd, List.range_succ_eq_map, Nat.succ_eq_add_one]

/-- C1. If the pipeline reaches middleware `k` (every earlier middleware
validates and contributes data) and middleware `k`'s handler returns a
terminal `Response`, then that response is the pipeline's result, the
invocation trace is exactly the middlewares `0..k` (so the handlers of
middlewares `k+1..n` never ran), and the route handler never ran. -/
theorem middleware_short_circuits_pipeline
    (route : RouteDef) (gmws : List Middleware) (req : Request)
    (pre : List Middleware) (mk : Middleware) (post : List Middleware)
    (parsed : ParsedData) (r : Val)
    (hall : gmws ++ route.middlewares = pre ++ mk :: post)
    (hparse : parseRequest req (effectiveRequest (gmws ++ route.middlewares) route) = .inr parsed)
    (hval : validateRequestFields parsed (route.request.getD {}) = .inr parsed)
    (hpre : ∀ m ∈ pre, mwPasses m parsed ∧ isDataOutcome m
      (createBaseContext req parsed (effectiveResponse (gmws ++ route.middlewares) route)))
    (hmk : mwPasses mk parsed)
    (hr : mk.handler
      (createBaseContext req parsed (effectiveResponse (gmws ++ route.middlewares) route)) = .value r)
    (hresp : isResp r = true) :
    wrappedHandler route gmws req = (r, List.range (pre.length + 1), false) := by
  rw [hall] at hpre hr
  simp only [wrappedHandler, hparse, hval]
  rw [hall]
  simp only [executeMiddlewares]
  rw [execAux_response_short_circuit pre mk post _ parsed r hpre hmk hr hresp []]

/-- C2. If the pipeline reaches middleware `k`, middleware `k` declares a
request schema, and validating the already-parsed data against that
schema fails on some declared field, then the pipeline returns a 400
response whose body message is the validator's error message for the
first failing field, the invocation trace is exactly the middlewares
`0..k-1` (middleware `k`'s own handler and all later handlers never ran),
and the route handler never ran. -/
theorem middleware_validation_short_circuits_pipeline
    (route : RouteDef) (gmws : List Middleware) (req : Request)
    (pre : List Middleware) (mk : Middleware) (post : List Middleware)
    (parsed : ParsedData) (rs : RequestSchema) (e : VErr)
    (hall : gmws ++ route.middlewares = pre ++ mk :: post)
    (hparse : parseRequest req (effectiveRequest (gmws ++ route.middlewares) route) = .inr parsed)
    (hval : validateRequestFields parsed (route.request.getD {}) = .inr parsed)
    (hpre : ∀ m ∈ pre, mwPasses m parsed ∧ isDataOutcome m
      (createBaseContext req parsed (effectiveResponse (gmws ++ route.middlewares) route)))
    (hrs : mk.request = some rs)
    (hfail : firstFieldError parsed rs = some e) :
    wrappedHandler route gmws req =
      (.resp 400 (msgBody e.message), List.range pre.length, false) := by
  have hvrf : validateRequestFields parsed rs = .inl (.resp 400 (msgBody e.message)) := by
    rw [validateRequestFields_eq_firstFieldError, hfail]
  rw [hall] at hpre
  simp only [wrappedHandler, hparse, hval]
  rw [hall]
  simp only [executeMiddlewares]
  rw [execAux_validation_short_circuit pre mk post _ parsed rs _ hpre hrs hvrf []]

/-- C7 as amended. Once the pipeline reaches the route handler, a thrown
failure or a falsy (missing) return value produces the fixed generic 500
response with body `{"message":"Internal server error"}`; any truthy
return value — whether or not it is a `Response` — is returned
unmodified. -/
theorem handler_outcome_pipeline
    (route : RouteDef) (gmws : List Middleware) (req : Request)
    (parsed : ParsedData) (D : List (String × Val)) (tr : List Nat)
    (hparse : parseRequest req (effectiveRequest (gmws ++ route.middlewares) route) = .inr parsed)
    (hval : validateRequestFields parsed (route.request.getD {}) = .inr parsed)
    (hexec : executeMiddlewares (gmws ++ route.middlewares)
      (createBaseContext req parsed (effectiveResponse (gmws ++ route.middlewares) route))
      parsed = (.inr D, tr)) :
    (route.handler (extendContext
        (createBaseContext req parsed (effectiveResponse (gmws ++ route.middlewares) route)) D) =
          .throws →
      wrappedHandler route gmws req = (internal500, tr, true)) ∧
    (∀ v, route.handler (extendContext
        (createBaseContext req parsed (effectiveResponse (gmws ++ route.middlewares) route)) D) =
          .value v → jsTruthy v = false →
      wrappedHandler route gmws req = (internal500, tr, true)) ∧
    (∀ v, route.handler (extendContext
        (createBaseContext req parsed (effectiveResponse (gmws ++ route.middlewares) route)) D) =
          .value v → jsTruthy v = true →
      wrappedHandler route gmws req = (v, tr, true)) := by
  refine ⟨?_, ?_, ?_⟩
  · intro h
    simp only [wrappedHandler, hparse, hval, hexec]
    simp [executeHandler, h]
  · intro v h ht
    simp only [wrappedHandler, hparse, hval, hexec]
    simp [executeHandler, h, ht]
  · intro v h ht
    simp only [wrappedHandler, hparse, hval, hexec]
    simp [executeHandler, h, ht]

/-- A data middleware contributing `{ a: 1 }`. -/
def mwData1 : Middleware := dataMiddleware [("a", Val.num 1)]

/-- A middleware that short-circuits with a 200 response. -/
def mwStop : Middleware := ⟨none, none, fun _ => .value (.resp 200 (.str "stop"))⟩

/-- A data middleware contributing `{ b: 2 }`, placed after the
short-circuiting one. -/
def mwAfter : Middleware := dataMiddleware [("b", Val.num 2)]

/-- A middleware whose request schema declares a rejecting query slot. -/
def mwBad : Middleware :=
  ⟨some { query := some schemaReject }, none, fun _ => .value (.obj [])⟩

/-- A route whose chain is data, short-circuit, data. -/
def routeC1 : RouteDef :=
  ⟨none, [], [mwData1, mwStop, mwAfter], fun _ => .value (.resp 201 .null)⟩

/-- A route whose chain is data, failing-validation, data. -/
def routeC2 : RouteDef :=
  ⟨none, [], [mwData1, mwBad, mwAfter], fun _ => .value (.resp 201 .null)⟩

/-- A route with no middleware whose handler throws. -/
def routeThrow : RouteDef := ⟨none, [], [], fun _ => .throws⟩

/-- A route with no middleware whose handler returns the number 1 —
truthy, but not a `Response`. -/
def routeNum : RouteDef := ⟨none, [], [], fun _ => .value (.num 1)⟩

/-- Witness for C1: middleware 1 of three returns a terminal 200; only
middlewares 0 and 1 run, the pipeline result is that response, the
route handler does not run. -/
theorem middleware_short_circuits_pipeline_witness :
    wrappedHandler routeC1 [] req0 = (.resp 200 (.str "stop"), List.range 2, false) :=
  middleware_short_circuits_pipeline routeC1 [] req0 [mwData1] mwStop [mwAfter]
    parsed0 (.resp 200 (.str "stop")) rfl rfl rfl
    (by
      intro m hm
      rw [List.mem_singleton] at hm
      subst hm
      exact ⟨fun rs h => Option.noConfusion h, ⟨.obj [("a", Val.num 1)], rfl, rfl⟩⟩)
    (fun rs h => Option.noConfusion h) rfl rfl

/-- Witness for C2: middleware 1 of three declares a rejecting query
schema; only middleware 0's handler runs and the pipeline returns the
validator's 400. -/
theorem middleware_validation_short_circuits_pipeline_witness :
    wrappedHandler routeC2 [] req0 =
      (.resp 400 (msgBody "q: required"), List.range 1, false) :=
  middleware_validation_short_circuits_pipeline routeC2 [] req0 [mwData1] mwBad [mwAfter]
    parsed0 { query := some schemaReject } ⟨"ValidationError", "q: required"⟩ rfl rfl rfl
    (by
      intro m hm
      rw [List.mem_singleton] at hm
      subst hm
      exact ⟨fun rs h => Option.noConfusion h, ⟨.obj [("a", Val.num 1)], rfl, rfl⟩⟩)
    rfl rfl

/-- Counterexample for C7 as stated: a handler that returns the number 1
— a value that is not a valid response object — does not produce a 500;
`executeHandler` checks only falsiness, so the pipeline returns the
number itself, unmodified. -/
theorem handler_invalid_value_cx :
    wrappedHandler routeNum [] req0 = (.num 1, [], true) ∧
    isResp (.num 1) = false ∧
    Val.num 1 ≠ internal500 :=
  ⟨rfl, rfl, fun h => Val.noConfusion h⟩

/-- Witness for C7 as amended: a throwing handler produces the generic
500 response. -/
theorem handler_outcome_pipeline_witness :
    wrappedHandler routeThrow [] req0 = (internal500, [], true) :=
  (handler_outcome_pipeline routeThrow [] req0 parsed0 [] [] rfl rfl rfl).1 rfl

/-! ### C8: path-template round trip -/

/-- Counterexample for C8 as stated: the declared template `/a/:b/{c}`
contains a `{name}` placeholder, yet the round trip through registration
(`{c}` to `:c`) and the spec generator (`:name` back to `{name}`) turns
the pre-existing `:b` into `{b}`, yielding `/a/{b}/{c}` instead of the
original template. -/
theorem path_round_trip_cx :
    convertPathToOpenApiFormat (convertPathToBunFormat "/a/:b/{c}") = "/a/{b}/{c}" ∧
    "/a/{b}/{c}" ≠ "/a/:b/{c}" := by
  constructor
  · simp [convertPathToBunFormat, convertPathToOpenApiFormat, toBunChars, fromBunChars, wordChar]
  · decide

/-- Templates for which the round trip is the identity: no colon is
followed by a word character (no transport-syntax placeholder is already
present), and no `{name}` placeholder is immediately followed by a word
character (so the reverse scan stops exactly at the placeholder's end). -/
def okTemplate : List Char → Bool
  | [] => true
  | c :: rest =>
    if c = ':' then
      (match rest.head? with
       | some d => !wordChar d
       | none => true) && okTemplate rest
    else if c = '{' then
      if h : (rest.dropWhile wordChar).head? = some '}' ∧ rest.takeWhile wordChar ≠ [] then
        (match ((rest.dropWhile wordChar).tail).head? with
         | some d => !wordChar d
         | none => true) && okTemplate ((rest.dropWhile wordChar).tail)
      else okTemplate rest
    else okTemplate rest
termination_by l => l.length
decreasing_by
  all_goals simp_wf
  all_goals try omega
  · first
    | (have hle := (List.dropWhile_sublist wordChar (l := rest)).length_le
       have hne : rest.dropWhile wordChar ≠ [] := by
         intro hnil
         rw [hnil] at h
         exact Option.noConfusion h.1
       have hpos := List.length_pos.mpr hne
       have htl := List.length_tail (rest.dropWhile wordChar)
       omega)
    | (have hle := (List.dropWhile_sublist wordChar (l := t)).length_le
       have hne : t.dropWhile wordChar ≠ [] := by
         intro hnil
         rw [hnil] at h
         exact Option.noConfusion h.1
       have hpos := List.length_pos.mpr hne
       have htl := List.length_tail (t.dropWhile wordChar)
       omega)

theorem toBunChars_nil : toBunChars [] = [] := by
  rw [toBunChars]

theorem toBunChars_cons_other {c : Char} (rest : List Char) (h : c ≠ '{') :
    toBunChars (c :: rest) = c :: toBunChars rest := by
  rw [toBunChars, if_neg h]

theorem toBunChars_cons_brace_pos (rest : List Char)
    (h : (rest.dropWhile wordChar).head? = some '}' ∧ rest.takeWhile wordChar ≠ []) :
    toBunChars ('{' :: rest) =
      ':' :: (rest.takeWhile wordChar ++ toBunChars (rest.dropWhile wordChar).tail) := by
  rw [toBunChars, if_pos rfl, dif_pos h]

theorem toBunChars_cons_brace_neg (rest : List Char)
    (h : ¬((rest.dropWhile wordChar).head? = some '}' ∧ rest.takeWhile wordChar ≠ [])) :
    toBunChars ('{' :: rest) = '{' :: toBunChars rest := by
  rw [toBunChars, if_pos rfl, dif_neg h]

theorem fromBunChars_nil : fromBunChars [] = [] := by
  rw [fromBunChars]

theorem fromBunChars_cons_other {c : Char} (rest : List Char) (h : c ≠ ':') :
    fromBunChars (c :: rest) = c :: fromBunChars rest := by
  rw [fromBunChars, if_neg h]

theorem fromBunChars_cons_colon_empty (rest : List Char)
    (h : (rest.takeWhile wordChar).isEmpty = true) :
    fromBunChars (':' :: rest) = ':' :: fromBunChars rest := by
  rw [fromBunChars, if_pos rfl, if_pos h]

theorem fromBunChars_cons_colon_run (rest : List Char)
    (h : ¬(rest.takeWhile wordChar).isEmpty = true) :
    fromBunChars (':' :: rest) =
      '{' :: (rest.takeWhile wordChar ++ ('}' :: fromBunChars (rest.dropWhile wordChar))) := by
  rw [fromBunChars, if_pos rfl, if_neg h]

theorem okTemplate_nil : okTemplate [] = true := by
  rw [okTemplate]

theorem okTemplate_cons_colon (rest : List Char) (h : okTemplate (':' :: rest) = true) :
    (∀ d, rest.head? = some d → wordChar d = false) ∧ okTemplate rest = true := by
  rw [okTemplate, if_pos rfl, Bool.and_eq_true] at h
  refine ⟨?_, h.2⟩
  intro d hd
  have h1 := h.1
  rw [hd] at h1
  simpa using h1

theorem okTemplate_cons_other {c : Char} (rest : List Char) (h1 : c ≠ ':') (h2 : c ≠ '{') :
    okTemplate (c :: rest) = okTemplate rest := by
  rw [okTemplate, if_neg h1, if_neg h2]

theorem okTemplate_cons_brace_pos (rest : List Char)
    (h : (rest.dropWhile wordChar).head? = some '}' ∧ rest.takeWhile wordChar ≠ [])
    (hok : okTemplate ('{' :: rest) = true) :
    (∀ d, ((rest.dropWhile wordChar).tail).head? = some d → wordChar d = false) ∧
      okTemplate ((rest.dropWhile wordChar).tail) = true := by
  rw [okTemplate, if_neg (by decide : ¬('{' : Char) = ':'), if_pos rfl, dif_pos h,
    Bool.and_eq_true] at hok
  refine ⟨?_, hok.2⟩
  intro d hd
  have h1 := hok.1
  rw [hd] at h1
  simpa using h1

theorem okTemplate_cons_brace_neg (rest : List Char)
    (h : ¬((rest.dropWhile wordChar).head? = some '}' ∧ rest.takeWhile wordChar ≠ [])) :
    okTemplate ('{' :: rest) = okTemplate rest := by
  rw [okTemplate, if_neg (by decide : ¬('{' : Char) = ':'), if_pos rfl, dif_neg h]

theorem takeWhile_word_append (run l : List Char) (h : ∀ c ∈ run, wordChar c = true) :
    (run ++ l).takeWhile wordChar = run ++ l.takeWhile wordChar := by
  induction run with
  | nil => simp
  | cons c t ih =>
    have hc := h c (List.mem_cons_self c t)
    have ht := fun d hd => h d (List.mem_cons_of_mem c hd)
    simp [List.takeWhile_cons_of_pos hc, ih ht]

theorem dropWhile_word_append (run l : List Char) (h : ∀ c ∈ run, wordChar c = true) :
    (run ++ l).dropWhile wordChar = l.dropWhile wordChar := by
  induction run with
  | nil => simp
  | cons c t ih =>
    have hc := h c (List.mem_cons_self c t)
    have ht := fun d hd => h d (List.mem_cons_of_mem c hd)
    simp [List.dropWhile_cons_of_pos hc, ih ht]

theorem headNotWord_takeWhile_nil (l : List Char)
    (h : ∀ d, l.head? = some d → wordChar d = false) :
    l.takeWhile wordChar = [] := by
  cases l with
  | nil => rfl
  | cons c t => exact List.takeWhile_cons_of_neg (by simp [h c rfl])

theorem headNotWord_dropWhile_self (l : List Char)
    (h : ∀ d, l.head? = some d → wordChar d = false) :
    l.dropWhile wordChar = l := by
  cases l with
  | nil => rfl
  | cons c t => exact List.dropWhile_cons_of_neg (by simp [h c rfl])

/-- The output of the forward conversion never starts with a word
character unless its input did: a copied non-word character, a produced
`:`, or a kept `{` all start the output. -/
theorem toBun_headNotWord (l : List Char)
    (h : ∀ d, l.head? = some d → (wordChar d = false ∨ d = '{')) :
    ∀ d, (toBunChars l).head? = some d → wordChar d = false := by
  cases l with
  | nil =>
    rw [toBunChars_nil]
    intro d hd
    exact Option.noConfusion hd
  | cons c rest =>
    by_cases hc : c = '{'
    · subst hc
      by_cases hcond : (rest.dropWhile wordChar).head? = some '}' ∧ rest.takeWhile wordChar ≠ []
      · rw [toBunChars_cons_brace_pos rest hcond]
        intro d hd
        have : d = ':' := by simpa using hd.symm
        subst this
        decide
      · rw [toBunChars_cons_brace_neg rest hcond]
        intro d hd
        have : d = '{' := by simpa using hd.symm
        subst this
        decide
    · rw [toBunChars_cons_other rest hc]
      intro d hd
      have hdc : d = c := by simpa using hd.symm
      subst hdc
      rcases h d rfl with hw | hbrace
      · exact hw
      · exact absurd hbrace hc

theorem roundTripAux (n : Nat) : ∀ l : List Char, l.length ≤ n → okTemplate l = true →
    fromBunChars (toBunChars l) = l := by
  induction n with
  | zero =>
    intro l hl _
    have hnil : l = [] := by
      cases l with
      | nil => rfl
      | cons c t => simp at hl
    subst hnil
    rw [toBunChars_nil, fromBunChars_nil]
  | succ n ih =>
    intro l hl hok
    cases l with
    | nil => rw [toBunChars_nil, fromBunChars_nil]
    | cons c rest =>
      have hrestlen : rest.length ≤ n := by
        simp only [List.length_cons] at hl
        omega
      by_cases hc : c = ':'
      · subst hc
        obtain ⟨hhead, hok'⟩ := okTemplate_cons_colon rest hok
        rw [toBunChars_cons_other rest (by decide)]
        have hnw : ∀ d, (toBunChars rest).head? = some d → wordChar d = false :=
          toBun_headNotWord rest (fun d hd => Or.inl (hhead d hd))
        have htw : (toBunChars rest).takeWhile wordChar = [] :=
          headNotWord_takeWhile_nil _ hnw
        rw [fromBunChars_cons_colon_empty _ (by rw [htw]; rfl)]
        rw [ih rest hrestlen hok']
      · by_cases hb : c = '{'
        · subst hb
          by_cases hcond : (rest.dropWhile wordChar).head? = some '}' ∧
              rest.takeWhile wordChar ≠ []
          · obtain ⟨hafterhead, hokafter⟩ := okTemplate_cons_brace_pos rest hcond hok
            rw [toBunChars_cons_brace_pos rest hcond]
            have hrunword : ∀ d ∈ rest.takeWhile wordChar, wordChar d = true :=
              fun d hd => List.mem_takeWhile_imp hd
            have hnw : ∀ d, (toBunChars ((rest.dropWhile wordChar).tail)).head? = some d →
                wordChar d = false :=
              toBun_headNotWord _ (fun d hd => Or.inl (hafterhead d hd))
            have htw2 : (toBunChars ((rest.dropWhile wordChar).tail)).takeWhile wordChar = [] :=
              headNotWord_takeWhile_nil _ hnw
            have hdw2 : (toBunChars ((rest.dropWhile wordChar).tail)).dropWhile wordChar =
                toBunChars ((rest.dropWhile wordChar).tail) :=
              headNotWord_dropWhile_self _ hnw
            have htake : ((rest.takeWhile wordChar) ++
                toBunChars ((rest.dropWhile wordChar).tail)).takeWhile wordChar =
                rest.takeWhile wordChar := by
              rw [takeWhile_word_append _ _ hrunword, htw2, List.append_nil]
            have hdrop : ((rest.takeWhile wordChar) ++
                toBunChars ((rest.dropWhile wordChar).tail)).dropWhile wordChar =
                toBunChars ((rest.dropWhile wordChar).tail) := by
              rw [dropWhile_word_append _ _ hrunword, hdw2]
            have hne : ¬(((rest.takeWhile wordChar) ++
                toBunChars ((rest.dropWhile wordChar).tail)).takeWhile wordChar).isEmpty = true := by
              rw [htake]
              cases hrunv : rest.takeWhile wordChar with
              | nil => exact absurd hrunv hcond.2
              | cons x xs => simp
            rw [fromBunChars_cons_colon_run _ hne, htake, hdrop]
            have hne2 : rest.dropWhile wordChar ≠ [] := by
              intro hnil
              rw [hnil] at hcond
              exact Option.noConfusion hcond.1
            have hlen_after : ((rest.dropWhile wordChar).tail).length ≤ n := by
              have hle := (List.dropWhile_sublist wordChar (l := rest)).length_le
              have hpos := List.length_pos.mpr hne2
              have htl := List.length_tail (rest.dropWhile wordChar)
              omega
            rw [ih _ hlen_after hokafter]
            have hdwshape : rest.dropWhile wordChar =
                '}' :: (rest.dropWhile wordChar).tail := by
              cases hdw : rest.dropWhile wordChar with
              | nil => exact absurd hdw hne2
              | cons x xs =>
                rw [hdw] at hcond
                have hx : x = '}' := by simpa using hcond.1
                subst hx
                rfl
            have hdecomp : rest = rest.takeWhile wordChar ++
                ('}' :: (rest.dropWhile wordChar).tail) := by
              conv_lhs => rw [← List.takeWhile_append_dropWhile wordChar rest]
              rw [← hdwshape]
            conv_rhs => rw [hdecomp]
          · rw [toBunChars_cons_brace_neg rest hcond]
            have hok' : okTemplate rest = true := by
              rw [okTemplate_cons_brace_neg rest hcond] at hok
              exact hok
            rw [fromBunChars_cons_other (toBunChars rest) (by decide : ¬('{' : Char) = ':'),
              ih rest hrestlen hok']
        · have hok' : okTemplate rest = true := by
            rw [okTemplate_cons_other rest hc hb] at hok
            exact hok
          rw [toBunChars_cons_other rest hb, fromBunChars_cons_other (toBunChars rest) hc,
            ih rest hrestlen hok']

/-- C8 as amended: for every declared template in which no `:` is
followed by a word character (no transport-syntax placeholder already
present) and no `{name}` placeholder is immediately followed by a word
character, converting to transport syntax at registration and applying
the spec generator's reverse mapping yields the original template. -/
theorem path_round_trip (path : String) (h : okTemplate path.toList = true) :
    convertPathToOpenApiFormat (convertPathToBunFormat path) = path := by
  have hlist := roundTripAux path.toList.length path.toList le_rfl h
  show String.mk (fromBunChars ((String.mk (toBunChars path.toList)).toList)) = path
  rw [show (String.mk (toBunChars path.toList)).toList = toBunChars path.toList from rfl, hlist]
  cases path
  rfl

/-- Witness for C8 as amended: `/users/{id}` survives the round trip. -/
theorem path_round_trip_witness :
    okTemplate "/users/{id}".toList = true ∧
    convertPathToOpenApiFormat (convertPathToBunFormat "/users/{id}") = "/users/{id}" := by
  have hok : okTemplate "/users/{id}".toList = true := by
    simp [okTemplate, wordChar]
  exact ⟨hok, path_round_trip "/users/{id}" hok⟩

end Semola
